import Mathlib

/-!
Verification of the report-package reconciliation and release-mapping engine
of `src/pyfaf/opsys/fedora.py` (class `Fedora`).

The Python module is shallowly embedded: the database session is an explicit
`DB` state (lists of rows), the SQLAlchemy query helpers become `List.find?`
lookups, and in-place row mutation (`row.count += count`) becomes a functional
update of the first matching row.  Python `KeyError` propagation is modelled
with `Option`, and `raise FafError` / checker failures with `Except`.
Report objects are identified by an opaque `Nat`.
-/

instance {ε α : Type} [DecidableEq ε] [DecidableEq α] :
    DecidableEq (Except ε α) := fun x y => by
  cases x <;> cases y
  case error.error e f => exact decidable_of_iff (e = f) (by simp)
  case error.ok e a => exact isFalse (fun h => by cases h)
  case ok.error a e => exact isFalse (fun h => by cases h)
  case ok.ok a b => exact decidable_of_iff (a = b) (by simp)

/-- A package entry of an incoming uReport (`package` in `_save_packages`):
a duck-typed dict with the five identity fields and an optional
`package_role` key. -/
structure PackageRecord where
  name : String
  epoch : Int
  version : String
  release : String
  architecture : String
  package_role : Option String
deriving DecidableEq

/-- A catalog package identity, the projection of `pyfaf.storage.Package`
that `_save_packages` reads: the (name, epoch, version, release, arch)
NEVRA looked up by `get_package_by_nevra`. -/
structure Package where
  name : String
  epoch : Int
  version : String
  release : String
  arch : String
deriving DecidableEq

/-- A `ReportPackage` row: links a report to a catalog package with a
role type and a count (lines 182-191 of the source). -/
structure ReportPackage where
  report : Nat
  installed_package : Package
  type : String
  count : Int
deriving DecidableEq

/-- A `ReportUnknownPackage` row (lines 153-179 of the source). -/
structure ReportUnknownPackage where
  report : Nat
  type : String
  name : String
  epoch : Int
  version : String
  release : String
  semver : String
  semrel : String
  arch : String
  count : Int
deriving DecidableEq

/-- An `OpSysRelease` row as consumed by `get_osrelease(db, nice_name,
version)`: identified by operating-system name and version string. -/
structure OsRelease where
  opsys : String
  version : String
deriving DecidableEq

/-- A `ReportReleaseDesktop` row (lines 220-231 of the source). -/
structure ReportReleaseDesktop where
  report : Nat
  release : OsRelease
  desktop : String
  count : Int
deriving DecidableEq

/-- The database state visible to the reconciliation core: the package
catalog, the architecture catalog, the release catalog, and the three
aggregate tables it mutates. -/
structure DB where
  packages : List Package
  arches : List String
  releases : List OsRelease
  report_packages : List ReportPackage
  unknown_packages : List ReportUnknownPackage
  report_release_desktops : List ReportReleaseDesktop
deriving DecidableEq

/-- The report-level metadata read by `validate_ureport` / `save_ureport`:
the optional `desktop` and `version` keys of the ureport dict.  A key that
is absent from the dict is `none`. -/
structure UReport where
  desktop : Option String
  version : Option String
deriving DecidableEq

/-- Key predicate of `get_reportpackage`: rows are selected by report and
installed package. -/
def rp_key (report : Nat) (pkg : Package) (row : ReportPackage) : Bool :=
  decide (row.report = report ∧ row.installed_package = pkg)

/-- Key predicate of `get_unknown_package`: rows are selected by report,
role type and the five NEVRA fields. -/
def up_key (report : Nat) (role : String) (name : String) (epoch : Int)
    (version release arch : String) (row : ReportUnknownPackage) : Bool :=
  decide (row.report = report ∧ row.type = role ∧ row.name = name ∧
          row.epoch = epoch ∧ row.version = version ∧ row.release = release ∧
          row.arch = arch)

/-- Key predicate of `get_report_release_desktop`. -/
def rrd_key (report : Nat) (release : OsRelease) (desktop : String)
    (row : ReportReleaseDesktop) : Bool :=
  decide (row.report = report ∧ row.release = release ∧ row.desktop = desktop)

/-- `pyfaf.queries.get_package_by_nevra`: exact-identity catalog lookup. -/
def get_package_by_nevra (db : DB) (name : String) (epoch : Int)
    (version release arch : String) : Option Package :=
  db.packages.find? (fun p => decide (p.name = name ∧ p.epoch = epoch ∧
    p.version = version ∧ p.release = release ∧ p.arch = arch))

/-- `pyfaf.queries.get_arch_by_name`. -/
def get_arch_by_name (db : DB) (arch : String) : Option String :=
  db.arches.find? (fun a => decide (a = arch))

/-- `pyfaf.queries.get_reportpackage`. -/
def get_reportpackage (db : DB) (report : Nat) (pkg : Package) :
    Option ReportPackage :=
  db.report_packages.find? (rp_key report pkg)

/-- `pyfaf.queries.get_unknown_package`. -/
def get_unknown_package (db : DB) (report : Nat) (role : String)
    (name : String) (epoch : Int) (version release arch : String) :
    Option ReportUnknownPackage :=
  db.unknown_packages.find? (up_key report role name epoch version release arch)

/-- `pyfaf.queries.get_osrelease`. -/
def get_osrelease (db : DB) (opsys version : String) : Option OsRelease :=
  db.releases.find? (fun r => decide (r.opsys = opsys ∧ r.version = version))

/-- `pyfaf.queries.get_report_release_desktop`. -/
def get_report_release_desktop (db : DB) (report : Nat) (release : OsRelease)
    (desktop : String) : Option ReportReleaseDesktop :=
  db.report_release_desktops.find? (rrd_key report release desktop)

/-- Functional rendering of the in-place mutation of the row returned by a
`find?` query: apply `f` to the first list entry satisfying `q`. -/
def update_first (q : α → Bool) (f : α → α) : List α → List α
  | [] => []
  | x :: xs => if q x then f x :: xs else x :: update_first q f xs

/-- Modelled from the spec: `pyfaf.storage.custom_types.to_semver` is not
under `src/`; the spec (§3, UnknownPackageAggregate) describes it only as a
derived sortable decomposition of the version/release string, used for
ordering outside this core and relied on by no claim.  It is modelled as
the identity on the string. -/
def to_semver (s : String) : String := s

/-- Role classification computed at the top of the `_save_packages` loop
(source lines 132-137): `affected` maps to `CRASHED`, `selinux_policy`
to `SELINUX_POLICY`, anything else (including an absent `package_role`
key) stays `RELATED`. -/
def role_classification (p : PackageRecord) : String :=
  match p.package_role with
  | some r =>
      if r = "affected" then "CRASHED"
      else if r = "selinux_policy" then "SELINUX_POLICY"
      else "RELATED"
  | none => "RELATED"

/-- One iteration of the `_save_packages` loop (source lines 131-191) for a
single package record.  The `some`/`none` branches mirror the source's
`db_package is None` test; row creation appends a row with `count = 0`
which the unconditional `count += count` line then increments. -/
def save_package_step (db : DB) (db_report : Nat) (package : PackageRecord)
    (count : Int) : DB :=
  let role := role_classification package
  match get_package_by_nevra db package.name package.epoch package.version
      package.release package.architecture with
  | none =>
    -- log_warn "Package ... not found in storage"
    match get_unknown_package db db_report role package.name package.epoch
        package.version package.release package.architecture with
    | some _ =>
      { db with unknown_packages :=
          (update_first
            (up_key db_report role package.name package.epoch package.version
              package.release package.architecture)
            (fun row => { row with count := row.count + count })
            db.unknown_packages) }
    | none =>
      match get_arch_by_name db package.architecture with
      | none => db
      | some db_arch =>
        { db with unknown_packages := db.unknown_packages ++
            [{ report := db_report, type := role, name := package.name,
               epoch := package.epoch, version := package.version,
               release := package.release,
               semver := to_semver package.version,
               semrel := to_semver package.release,
               arch := db_arch, count := 0 + count }] }
  | some db_package =>
    match get_reportpackage db db_report db_package with
    | some _ =>
      { db with report_packages :=
          (update_first (rp_key db_report db_package)
            (fun row => { row with count := row.count + count })
            db.report_packages) }
    | none =>
      { db with report_packages := db.report_packages ++
          [{ report := db_report, installed_package := db_package,
             type := role, count := 0 + count }] }

/-- `Fedora._save_packages`: reconcile every record of the list in order. -/
def save_packages (db : DB) (db_report : Nat) (packages : List PackageRecord)
    (count : Int) : DB :=
  packages.foldl (fun db package => save_package_step db db_report package count) db

/-- `Fedora.save_ureport` (source lines 213-236).  Reading
`ureport["version"]` on a dict without that key raises `KeyError`, modelled
as `none`.  The `flush` parameter only forwards to `db.session.flush()`, a
persistence boundary with no model-visible effect, and is omitted. -/
def save_ureport (db : DB) (db_report : Nat) (ureport : UReport)
    (packages : List PackageRecord) (count : Int) : Option DB :=
  match ureport.desktop with
  | some desktop =>
    match ureport.version with
    | none => none
    | some version =>
      let db1 :=
        match get_osrelease db "Fedora" version with
        | none => db
          -- log_warn "Release 'Fedora {version}' not found"
        | some db_release =>
          match get_report_release_desktop db db_report db_release desktop with
          | some _ =>
            { db with report_release_desktops :=
                (update_first (rrd_key db_report db_release desktop)
                  (fun row => { row with count := row.count + count })
                  db.report_release_desktops) }
          | none =>
            { db with report_release_desktops := db.report_release_desktops ++
                [{ report := db_report, release := db_release,
                   desktop := desktop, count := 0 + count }] }
      some (save_packages db1 db_report packages count)
  | none => some (save_packages db db_report packages count)

/-- Validation error taxonomy of the spec (§7): checker failures are
`schemaViolation`, role/policy failures raised as `FafError` by
`validate_packages` are `policyViolation` with the source's message. -/
inductive ValidationError where
  | schemaViolation : ValidationError
  | policyViolation : String → ValidationError
deriving DecidableEq

/-- Character class of the `name` field regex `[a-zA-Z0-9_\-\.\+~]`
(source line 61). -/
def name_char (c : Char) : Bool :=
  c.isAlphanum || c = '_' || c = '-' || c = '.' || c = '+' || c = '~'

/-- Character class of the `version` field regex `[a-zA-Z0-9_\.\+~]`
(source line 65). -/
def version_char (c : Char) : Bool :=
  c.isAlphanum || c = '_' || c = '.' || c = '+' || c = '~'

/-- Character class of the `release` field regex `[a-zA-Z0-9_\.\+]`
(source line 67). -/
def release_char (c : Char) : Bool :=
  c.isAlphanum || c = '_' || c = '.' || c = '+'

/-- Character class of the `architecture` field regex `[a-zA-Z0-9_]`
(source line 69). -/
def arch_char (c : Char) : Bool :=
  c.isAlphanum || c = '_'

/-- Modelled from the spec: `pyfaf.checker`'s `DictChecker` / `IntChecker` /
`StringChecker` classes are not under `src/`.  Per spec §4.1 each string
field must be a non-empty string over its character set (regexes taken from
source lines 59-72) and the epoch a non-negative integer; the column-width
maximum lengths come from catalog column widths that are also not under
`src/` and are not modelled. -/
def package_record_ok (p : PackageRecord) : Bool :=
  !p.name.data.isEmpty && p.name.data.all name_char &&
  decide (0 ≤ p.epoch) &&
  !p.version.data.isEmpty && p.version.data.all version_char &&
  !p.release.data.isEmpty && p.release.data.all release_char &&
  !p.architecture.data.isEmpty && p.architecture.data.all arch_char

/-- Modelled from the spec: the `packages_checker` `ListChecker` (source
lines 59-72) structurally validates every element of the package list. -/
def packages_checker_ok (packages : List PackageRecord) : Bool :=
  packages.all package_record_ok

/-- `Fedora.pkg_roles` (source line 86). -/
def pkg_roles : List String := ["affected", "related", "selinux_policy"]

/-- The role-scanning loop of `validate_packages` (source lines 200-206):
threads the `affected` flag, raising on the first role tag outside
`pkg_roles`. -/
def scan_roles : List PackageRecord → Bool → Except ValidationError Bool
  | [], affected => .ok affected
  | package :: rest, affected =>
    match package.package_role with
    | none => scan_roles rest affected
    | some role =>
      if role ∉ pkg_roles then
        .error (.policyViolation
          "Only the following package roles are allowed: affected, related, selinux_policy")
      else scan_roles rest (affected || role = "affected")

/-- `Fedora.validate_packages` (source lines 197-211): structural check via
the list checker, then the role scan, then the affected-package policy
gated by the `allow_unpackaged` configuration flag.  The function reads no
mutable state and performs no repository calls. -/
def validate_packages (allow_unpackaged : Bool)
    (packages : List PackageRecord) : Except ValidationError Bool :=
  if packages_checker_ok packages then
    match scan_roles packages false with
    | .error e => .error e
    | .ok affected =>
      if !(affected || allow_unpackaged) then
        .error (.policyViolation "uReport must contain affected package")
      else .ok true
  else .error .schemaViolation

/-- Character class of the `desktop` field regex (source line 81):
alphanumerics, underscore, slash and hyphen. -/
def desktop_char (c : Char) : Bool :=
  c.isAlphanum || c = '_' || c = '/' || c = '-'

/-- Modelled from the spec: the `ureport_checker` `DictChecker` (source
lines 74-84) declares a single optional `desktop` key checked against its
regex; no `version` key is required (spec §4.1: report-level metadata is
validated independently of the package list).  Column-width maxima are not
modelled. -/
def ureport_checker_ok (ureport : UReport) : Bool :=
  match ureport.desktop with
  | none => true
  | some d => !d.data.isEmpty && d.data.all desktop_char

/-- `Fedora.validate_ureport` (source lines 193-195). -/
def validate_ureport (ureport : UReport) : Except ValidationError Bool :=
  if ureport_checker_ok ureport then .ok true else .error .schemaViolation

/-- Python `str.lower()` restricted to the ASCII range used here. -/
def py_lower (s : String) : String := ⟨s.data.map Char.toLower⟩

/-- Python `str.isdigit()` restricted to ASCII decimal digits: true on a
non-empty all-digit string. -/
def py_isdigit (s : String) : Bool :=
  !s.data.isEmpty && s.data.all Char.isDigit

/-- Python `int(s)` on an all-digit string. -/
def digits_val (l : List Char) : Nat :=
  l.foldl (fun a c => a * 10 + (c.toNat - 48)) 0

/-- Python `int(s)` applied to a string that passed `isdigit`. -/
def py_int (s : String) : Nat := digits_val s.data

/-- `Fedora._release_to_branch` (source lines 333-354), on string input
(non-string input is first converted with `str`, outside this model).
The `FafError` message carries the offending value. -/
def release_to_branch (release : String) : Except String String :=
  if py_lower release = "rawhide" then .ok "rawhide"
  else if py_isdigit release then
    let int_release := py_int release
    if int_release < 6 then .ok ("FC-" ++ toString int_release)
    else if int_release = 6 then .ok ("fc" ++ toString int_release)
    else .ok ("f" ++ toString int_release)
  else .error (release ++ " is not a valid Fedora version")

/-- A raw build record as returned by the koji `listTagged` collaborator:
the fields read by `get_released_builds`.  `epoch` may be `null`. -/
structure RawBuild where
  name : String
  epoch : Option Int
  version : String
  release : String
  nvr : String
  completion_time : String
deriving DecidableEq

/-- A parsed `datetime` value as produced by `datetime.strptime` with the
format `"%Y-%m-%d %H:%M:%S.%f"`. -/
structure Timestamp where
  year : Nat
  month : Nat
  day : Nat
  hour : Nat
  minute : Nat
  second : Nat
  microsecond : Nat
deriving DecidableEq

/-- The normalized output record of `get_released_builds`. -/
structure BuildRecord where
  name : String
  epoch : Int
  version : String
  release : String
  nvr : String
  completion_time : Timestamp
deriving DecidableEq

/-- Gregorian leap-year test, as validated by `datetime`. -/
def is_leap_year (y : Nat) : Bool :=
  (y % 4 == 0 && !(y % 100 == 0)) || y % 400 == 0

/-- Day count of a month, as validated by the `datetime` constructor. -/
def days_in_month (y m : Nat) : Nat :=
  if m = 2 then (if is_leap_year y then 29 else 28)
  else if m = 4 ∨ m = 6 ∨ m = 9 ∨ m = 11 then 30 else 31

/-- Read a run of decimal digits of length within `[minLen, maxLen]` whose
value lies within `[lo, hi]`, mirroring one numeric directive of CPython's
`_strptime` regex followed by the `datetime` range check.  Returns the
value and the unconsumed input. -/
def take_num (minLen maxLen lo hi : Nat) (l : List Char) :
    Option (Nat × List Char) :=
  let ds := l.takeWhile Char.isDigit
  if minLen ≤ ds.length ∧ ds.length ≤ maxLen then
    let v := digits_val ds
    if lo ≤ v ∧ v ≤ hi then some (v, l.drop ds.length) else none
  else none

/-- Consume one expected literal character. -/
def expect_char (c : Char) : List Char → Option (List Char)
  | [] => none
  | x :: xs => if x = c then some xs else none

/-- `datetime.strptime(s, "%Y-%m-%d %H:%M:%S.%f")`: `%Y` is exactly four
digits, the other numeric directives accept one or two digits within their
range, `%f` accepts one to six digits right-padded with zeros to
microseconds, the whole string must be consumed, and the `datetime`
constructor additionally checks the day against the month length and
rejects year 0.  Failure (`ValueError`) is `none`. -/
def strptime_datetime (s : String) : Option Timestamp := do
  let (y, r1) ← take_num 4 4 1 9999 s.data
  let r2 ← expect_char '-' r1
  let (mo, r3) ← take_num 1 2 1 12 r2
  let r4 ← expect_char '-' r3
  let (d, r5) ← take_num 1 2 1 31 r4
  let r6 ← expect_char ' ' r5
  let (h, r7) ← take_num 1 2 0 23 r6
  let r8 ← expect_char ':' r7
  let (mi, r9) ← take_num 1 2 0 59 r8
  let r10 ← expect_char ':' r9
  let (sec, r11) ← take_num 1 2 0 59 r10
  let r12 ← expect_char '.' r11
  let ds := r12.takeWhile Char.isDigit
  if 1 ≤ ds.length ∧ ds.length ≤ 6 ∧ r12.drop ds.length = [] ∧
      d ≤ days_in_month y mo then
    some ⟨y, mo, d, h, mi, sec, digits_val ds * 10 ^ (6 - ds.length)⟩
  else none

/-- Normalization of one build record in the list comprehension of
`get_released_builds` (source lines 363-369): `null` epoch becomes 0, the
completion time is parsed, the other fields pass through. -/
def normalize_build (b : RawBuild) : Option BuildRecord :=
  match strptime_datetime b.completion_time with
  | none => none
  | some t =>
    some { name := b.name,
           epoch := match b.epoch with | some e => e | none => 0,
           version := b.version, release := b.release, nvr := b.nvr,
           completion_time := t }

/-- Normalize each record in order; the first `ValueError` aborts the whole
comprehension. -/
def normalize_builds : List RawBuild → Option (List BuildRecord)
  | [] => some []
  | b :: bs =>
    match normalize_build b, normalize_builds bs with
    | some r, some rs => some (r :: rs)
    | _, _ => none

/-- Python's `<` on strings: lexicographic comparison by code point, which
is exactly `List.lt` on the underlying character lists (the relation behind
core's `LT String` instance, spelled out so that it evaluates). -/
def str_lt (a b : String) : Bool := decide (a.data < b.data)

/-- Stable insertion (descending by the raw `completion_time` string) used
to model Python's stable `sorted(..., key=lambda b: b["completion_time"],
reverse=True)`: a new element is placed before the first strictly smaller
key and after all keys greater than or equal to its own. -/
def insert_desc (x : RawBuild) : List RawBuild → List RawBuild
  | [] => [x]
  | y :: ys =>
    if str_lt y.completion_time x.completion_time then x :: y :: ys
    else y :: insert_desc x ys

/-- Stable descending sort by the raw `completion_time` string. -/
def sorted_desc (l : List RawBuild) : List RawBuild :=
  l.foldl (fun acc x => insert_desc x acc) []

/-- `Fedora.get_released_builds` (source lines 356-372): concatenate the
two tag queries' results, sort by the raw completion-time string
descending (Python's stable `sorted` with `reverse=True`), and normalize
each record. -/
def get_released_builds (builds_release builds_updates : List RawBuild) :
    Option (List BuildRecord) :=
  normalize_builds (sorted_desc (builds_release ++ builds_updates))

/-! ### Observables: aggregate counts per key -/

/-- Sum of `g` over the entries of `l` selected by `p`. -/
def sumBy (p : α → Bool) (g : α → Int) (l : List α) : Int :=
  ((l.filter p).map g).sum

/-- Total association count stored for a (report, catalog package) pair. -/
def rp_count (db : DB) (report : Nat) (pkg : Package) : Int :=
  sumBy (rp_key report pkg) (fun row => row.count) db.report_packages

/-- Total unknown-package aggregate count stored for a
(report, role, NEVRA) key. -/
def up_count (db : DB) (report : Nat) (role name : String) (epoch : Int)
    (version release arch : String) : Int :=
  sumBy (up_key report role name epoch version release arch)
    (fun row => row.count) db.unknown_packages

/-- Total desktop-usage aggregate count stored for a
(report, release, desktop) key. -/
def rrd_count (db : DB) (report : Nat) (release : OsRelease)
    (desktop : String) : Int :=
  sumBy (rrd_key report release desktop) (fun row => row.count)
    db.report_release_desktops

/-! ### Generic lemmas about `sumBy` and `update_first` -/

theorem sumBy_nil (p : α → Bool) (g : α → Int) : sumBy p g [] = 0 := rfl

theorem sumBy_cons (p : α → Bool) (g : α → Int) (x : α) (l : List α) :
    sumBy p g (x :: l) = (if p x then g x else 0) + sumBy p g l := by
  by_cases h : p x <;> simp [sumBy, List.filter_cons, h]

theorem sumBy_eq_zero (p : α → Bool) (g : α → Int) (l : List α)
    (h : ∀ x ∈ l, p x = false) : sumBy p g l = 0 := by
  induction l with
  | nil => rfl
  | cons x xs ih =>
    rw [sumBy_cons, h x (List.mem_cons_self x xs),
      ih (fun y hy => h y (List.mem_cons_of_mem x hy))]
    simp

theorem sumBy_append (p : α → Bool) (g : α → Int) (l₁ l₂ : List α) :
    sumBy p g (l₁ ++ l₂) = sumBy p g l₁ + sumBy p g l₂ := by
  simp [sumBy, List.filter_append]

theorem sumBy_singleton (p : α → Bool) (g : α → Int) (x : α) :
    sumBy p g [x] = if p x then g x else 0 := by
  rw [sumBy_cons, sumBy_nil]; simp

theorem update_first_of_all_not (q : α → Bool) (f : α → α) (l : List α)
    (h : ∀ x ∈ l, q x = false) : update_first q f l = l := by
  induction l with
  | nil => rfl
  | cons x xs ih =>
    rw [update_first, h x (List.mem_cons_self x xs),
      ih (fun y hy => h y (List.mem_cons_of_mem x hy))]
    simp

theorem sumBy_update_first_hit (p q : α → Bool) (f : α → α) (g : α → Int)
    (c : Int) (l : List α)
    (hf : ∀ x, q x = true → p x = true ∧ p (f x) = true ∧ g (f x) = g x + c)
    (hex : ∃ x ∈ l, q x = true) :
    sumBy p g (update_first q f l) = sumBy p g l + c := by
  induction l with
  | nil => simp at hex
  | cons x xs ih =>
    by_cases hq : q x
    · rw [update_first, if_pos hq, sumBy_cons, sumBy_cons,
        (hf x hq).1, (hf x hq).2.1, (hf x hq).2.2]
      simp; ring
    · obtain ⟨y, hy, hqy⟩ := hex
      rcases List.mem_cons.mp hy with h | h
      · subst h; simp [hqy] at hq
      · rw [update_first, if_neg hq, sumBy_cons, sumBy_cons, ih ⟨y, h, hqy⟩]
        ring

theorem sumBy_update_first_miss (p q : α → Bool) (f : α → α) (g : α → Int)
    (l : List α)
    (h : ∀ x, q x = true → p x = false ∧ p (f x) = false) :
    sumBy p g (update_first q f l) = sumBy p g l := by
  induction l with
  | nil => rfl
  | cons x xs ih =>
    by_cases hq : q x
    · rw [update_first, if_pos hq, sumBy_cons, sumBy_cons,
        (h x hq).1, (h x hq).2]
      simp
    · rw [update_first, if_neg hq, sumBy_cons, sumBy_cons, ih]

/-! ### Helper lemmas about the queries and the reconciliation step -/

theorem find?_key_exists {q : α → Bool} {l : List α} {x : α}
    (h : l.find? q = some x) : ∃ y ∈ l, q y = true :=
  ⟨x, List.mem_of_find?_eq_some h, List.find?_some h⟩

theorem get_package_by_nevra_some {db : DB} {n : String} {e : Int}
    {v rel a : String} {pkg : Package}
    (h : get_package_by_nevra db n e v rel a = some pkg) :
    pkg = ⟨n, e, v, rel, a⟩ := by
  have hs := List.find?_some h
  simp only [decide_eq_true_eq] at hs
  obtain ⟨h1, h2, h3, h4, h5⟩ := hs
  cases pkg
  simp_all

theorem get_arch_by_name_some {db : DB} {a x : String}
    (h : get_arch_by_name db a = some x) : x = a := by
  have hs := List.find?_some h
  simpa using hs

theorem get_package_by_nevra_ext {db db' : DB}
    (hp : db'.packages = db.packages) (n : String) (e : Int)
    (v rel a : String) :
    get_package_by_nevra db' n e v rel a = get_package_by_nevra db n e v rel a := by
  unfold get_package_by_nevra
  rw [hp]

theorem get_arch_by_name_ext {db db' : DB} (ha : db'.arches = db.arches)
    (a : String) : get_arch_by_name db' a = get_arch_by_name db a := by
  unfold get_arch_by_name
  rw [ha]

theorem save_package_step_frame (db : DB) (r : Nat) (p : PackageRecord)
    (c : Int) :
    (save_package_step db r p c).packages = db.packages ∧
    (save_package_step db r p c).arches = db.arches ∧
    (save_package_step db r p c).releases = db.releases ∧
    (save_package_step db r p c).report_release_desktops
      = db.report_release_desktops := by
  unfold save_package_step
  dsimp only
  repeat' split
  all_goals exact ⟨rfl, rfl, rfl, rfl⟩

/-- Known-package branch of the step: the unknown table is untouched, the
association count for the (report, found package) key grows by `count`,
and every other association count is unchanged. -/
theorem step_known (db : DB) (r : Nat) (p : PackageRecord) (c : Int)
    (pkg : Package)
    (h : get_package_by_nevra db p.name p.epoch p.version p.release
      p.architecture = some pkg) :
    (save_package_step db r p c).unknown_packages = db.unknown_packages ∧
    rp_count (save_package_step db r p c) r pkg = rp_count db r pkg + c ∧
    ∀ r' pkg', ¬(r' = r ∧ pkg' = pkg) →
      rp_count (save_package_step db r p c) r' pkg' = rp_count db r' pkg' := by
  rcases hrp : get_reportpackage db r pkg with _ | row
  · -- no association row yet: one is created with count `0 + c`
    simp only [save_package_step, h, hrp]
    refine ⟨by trivial, ?_, ?_⟩
    · unfold rp_count
      dsimp only
      rw [sumBy_append, sumBy_singleton]
      have : rp_key r pkg
          { report := r, installed_package := pkg,
            type := role_classification p, count := 0 + c } = true := by
        simp [rp_key]
      rw [this]
      simp
    · intro r' pkg' hne
      unfold rp_count
      dsimp only
      rw [sumBy_append, sumBy_singleton]
      have : rp_key r' pkg'
          { report := r, installed_package := pkg,
            type := role_classification p, count := 0 + c } = false := by
        simp only [rp_key, decide_eq_false_iff_not]
        intro hk
        exact hne ⟨hk.1.symm, hk.2.symm⟩
      rw [this]
      simp
  · -- existing association row: its count is incremented in place
    simp only [save_package_step, h, hrp]
    refine ⟨by trivial, ?_, ?_⟩
    · unfold rp_count
      dsimp only
      apply sumBy_update_first_hit
      · intro x hx
        exact ⟨hx, hx, rfl⟩
      · exact find?_key_exists hrp
    · intro r' pkg' hne
      unfold rp_count
      dsimp only
      apply sumBy_update_first_miss
      intro x hx
      have hx' : x.report = r ∧ x.installed_package = pkg := by
        simpa [rp_key] using hx
      constructor
      · simp only [rp_key, decide_eq_false_iff_not]
        intro hk
        exact hne ⟨hk.1.symm.trans hx'.1, hk.2.symm.trans hx'.2⟩
      · simp only [rp_key, decide_eq_false_iff_not]
        intro hk
        exact hne ⟨hk.1.symm.trans hx'.1, hk.2.symm.trans hx'.2⟩

/-- Absent-package branch when an unknown-aggregate row for the key already
exists: it is incremented in place, without consulting the architecture
catalog. -/
theorem step_absent_hit (db : DB) (r : Nat) (p : PackageRecord) (c : Int)
    (row : ReportUnknownPackage)
    (h : get_package_by_nevra db p.name p.epoch p.version p.release
      p.architecture = none)
    (hrow : get_unknown_package db r (role_classification p) p.name p.epoch
      p.version p.release p.architecture = some row) :
    (save_package_step db r p c).report_packages = db.report_packages ∧
    up_count (save_package_step db r p c) r (role_classification p) p.name
      p.epoch p.version p.release p.architecture
      = up_count db r (role_classification p) p.name p.epoch p.version
          p.release p.architecture + c := by
  simp only [save_package_step, h, hrow]
  refine ⟨by trivial, ?_⟩
  unfold up_count
  dsimp only
  apply sumBy_update_first_hit
  · intro x hx
    exact ⟨hx, hx, rfl⟩
  · exact find?_key_exists hrow

/-- Absent-package branch when no aggregate row exists yet and the
architecture resolves: a fresh row is created carrying count `0 + c`. -/
theorem step_absent_create (db : DB) (r : Nat) (p : PackageRecord) (c : Int)
    (a : String)
    (h : get_package_by_nevra db p.name p.epoch p.version p.release
      p.architecture = none)
    (hrow : get_unknown_package db r (role_classification p) p.name p.epoch
      p.version p.release p.architecture = none)
    (harch : get_arch_by_name db p.architecture = some a) :
    (save_package_step db r p c).report_packages = db.report_packages ∧
    up_count (save_package_step db r p c) r (role_classification p) p.name
      p.epoch p.version p.release p.architecture
      = up_count db r (role_classification p) p.name p.epoch p.version
          p.release p.architecture + c := by
  have ha : a = p.architecture := get_arch_by_name_some harch
  subst ha
  simp only [save_package_step, h, hrow, harch]
  refine ⟨by trivial, ?_⟩
  unfold up_count
  dsimp only
  rw [sumBy_append, sumBy_singleton]
  have hkey : up_key r (role_classification p) p.name p.epoch p.version
      p.release p.architecture
      { report := r, type := role_classification p, name := p.name,
        epoch := p.epoch, version := p.version, release := p.release,
        semver := to_semver p.version, semrel := to_semver p.release,
        arch := p.architecture, count := 0 + c } = true := by
    simp [up_key]
  rw [hkey]
  simp

/-- Absent-package branch when no aggregate row exists and the architecture
does not resolve: the record is skipped and the state is unchanged. -/
theorem step_absent_skip (db : DB) (r : Nat) (p : PackageRecord) (c : Int)
    (h : get_package_by_nevra db p.name p.epoch p.version p.release
      p.architecture = none)
    (hrow : get_unknown_package db r (role_classification p) p.name p.epoch
      p.version p.release p.architecture = none)
    (harch : get_arch_by_name db p.architecture = none) :
    save_package_step db r p c = db := by
  simp only [save_package_step, h, hrow, harch]

/-- Absent-package branch: the association table is never touched. -/
theorem step_absent_rp (db : DB) (r : Nat) (p : PackageRecord) (c : Int)
    (h : get_package_by_nevra db p.name p.epoch p.version p.release
      p.architecture = none) :
    (save_package_step db r p c).report_packages = db.report_packages := by
  rcases hrow : get_unknown_package db r (role_classification p) p.name
      p.epoch p.version p.release p.architecture with _ | row
  · rcases harch : get_arch_by_name db p.architecture with _ | a
    · simp only [save_package_step, h, hrow, harch]
    · simp only [save_package_step, h, hrow, harch]
  · simp only [save_package_step, h, hrow]

/-- Absent-package branch: unknown-aggregate counts at every key other
than the record's own (report, role, NEVRA) key are unchanged. -/
theorem step_absent_other (db : DB) (r : Nat) (p : PackageRecord) (c : Int)
    (h : get_package_by_nevra db p.name p.epoch p.version p.release
      p.architecture = none)
    (r' : Nat) (role' n' : String) (e' : Int) (v' rel' a' : String)
    (hne : ¬(r' = r ∧ role' = role_classification p ∧ n' = p.name ∧
      e' = p.epoch ∧ v' = p.version ∧ rel' = p.release ∧
      a' = p.architecture)) :
    up_count (save_package_step db r p c) r' role' n' e' v' rel' a'
      = up_count db r' role' n' e' v' rel' a' := by
  rcases hrow : get_unknown_package db r (role_classification p) p.name
      p.epoch p.version p.release p.architecture with _ | row
  · rcases harch : get_arch_by_name db p.architecture with _ | a
    · simp only [save_package_step, h, hrow, harch]
    · have ha : a = p.architecture := get_arch_by_name_some harch
      subst ha
      simp only [save_package_step, h, hrow, harch]
      unfold up_count
      dsimp only
      rw [sumBy_append, sumBy_singleton]
      have hkey : up_key r' role' n' e' v' rel' a'
          { report := r, type := role_classification p, name := p.name,
            epoch := p.epoch, version := p.version, release := p.release,
            semver := to_semver p.version, semrel := to_semver p.release,
            arch := p.architecture, count := 0 + c } = false := by
        simp only [up_key, decide_eq_false_iff_not]
        intro hk
        exact hne ⟨hk.1.symm, hk.2.1.symm, hk.2.2.1.symm, hk.2.2.2.1.symm,
          hk.2.2.2.2.1.symm, hk.2.2.2.2.2.1.symm, hk.2.2.2.2.2.2.symm⟩
      rw [hkey]
      simp
  · simp only [save_package_step, h, hrow]
    unfold up_count
    dsimp only
    apply sumBy_update_first_miss
    intro x hx
    have hx' : x.report = r ∧ x.type = role_classification p ∧
        x.name = p.name ∧ x.epoch = p.epoch ∧ x.version = p.version ∧
        x.release = p.release ∧ x.arch = p.architecture := by
      simpa [up_key] using hx
    have hfalse : up_key r' role' n' e' v' rel' a' x = false := by
      simp only [up_key, decide_eq_false_iff_not]
      intro hk
      exact hne ⟨hk.1.symm.trans hx'.1, hk.2.1.symm.trans hx'.2.1,
        hk.2.2.1.symm.trans hx'.2.2.1, hk.2.2.2.1.symm.trans hx'.2.2.2.1,
        hk.2.2.2.2.1.symm.trans hx'.2.2.2.2.1,
        hk.2.2.2.2.2.1.symm.trans hx'.2.2.2.2.2.1,
        hk.2.2.2.2.2.2.symm.trans hx'.2.2.2.2.2.2⟩
    exact ⟨hfalse, hfalse⟩

/-! ### Claim C1 -/

/-- C1: reconciliation partitions each package record by catalog presence.
A record whose (name, epoch, version, release, architecture) identity is
found by `get_package_by_nevra` increments (or creates with the increment)
exactly the one association count keyed by (report, found package), leaving
the unknown-package table untouched; a record whose identity is absent
leaves the association table untouched and changes at most the one
unknown-aggregate count keyed by (report, role, NEVRA) — possibly nothing
at all, when the record is skipped.  `save_packages` folds this step over
the record list in order, so no single record ever produces both kinds of
row. -/
theorem fedora_C1 (db : DB) (db_report : Nat) (package : PackageRecord)
    (count : Int) :
    (∀ pkg, get_package_by_nevra db package.name package.epoch
        package.version package.release package.architecture = some pkg →
      pkg = ⟨package.name, package.epoch, package.version, package.release,
        package.architecture⟩ ∧
      (save_package_step db db_report package count).unknown_packages
        = db.unknown_packages ∧
      rp_count (save_package_step db db_report package count) db_report pkg
        = rp_count db db_report pkg + count ∧
      (∀ r' pkg', ¬(r' = db_report ∧ pkg' = pkg) →
        rp_count (save_package_step db db_report package count) r' pkg'
          = rp_count db r' pkg')) ∧
    (get_package_by_nevra db package.name package.epoch package.version
        package.release package.architecture = none →
      (save_package_step db db_report package count).report_packages
        = db.report_packages ∧
      (∀ r' role' n' e' v' rel' a',
        ¬(r' = db_report ∧ role' = role_classification package ∧
          n' = package.name ∧ e' = package.epoch ∧ v' = package.version ∧
          rel' = package.release ∧ a' = package.architecture) →
        up_count (save_package_step db db_report package count) r' role' n'
          e' v' rel' a' = up_count db r' role' n' e' v' rel' a') ∧
      (up_count (save_package_step db db_report package count) db_report
          (role_classification package) package.name package.epoch
          package.version package.release package.architecture
        = up_count db db_report (role_classification package) package.name
            package.epoch package.version package.release
            package.architecture + count ∨
       save_package_step db db_report package count = db)) := by
  constructor
  · intro pkg h
    obtain ⟨h1, h2, h3⟩ := step_known db db_report package count pkg h
    exact ⟨get_package_by_nevra_some h, h1, h2, h3⟩
  · intro h
    refine ⟨step_absent_rp db db_report package count h, ?_, ?_⟩
    · intro r' role' n' e' v' rel' a' hne
      exact step_absent_other db db_report package count h r' role' n' e'
        v' rel' a' hne
    · rcases hrow : get_unknown_package db db_report
          (role_classification package) package.name package.epoch
          package.version package.release package.architecture with _ | row
      · rcases harch : get_arch_by_name db package.architecture with _ | a
        · exact Or.inr (step_absent_skip db db_report package count h hrow
            harch)
        · exact Or.inl (step_absent_create db db_report package count a h
            hrow harch).2
      · exact Or.inl (step_absent_hit db db_report package count row h
          hrow).2

theorem fedora_C1_witness :
    rp_count (save_package_step
        ⟨[⟨"foo", 0, "1.0", "1.fc20", "x86_64"⟩], ["x86_64"], [], [], [], []⟩
        1 ⟨"foo", 0, "1.0", "1.fc20", "x86_64", some "affected"⟩ 1)
      1 ⟨"foo", 0, "1.0", "1.fc20", "x86_64"⟩ = 1 ∧
    (save_package_step
        ⟨[⟨"foo", 0, "1.0", "1.fc20", "x86_64"⟩], ["x86_64"], [], [], [], []⟩
        1 ⟨"foo", 0, "1.0", "1.fc20", "x86_64", some "affected"⟩ 1).unknown_packages = [] ∧
    (up_count (save_package_step ⟨[], ["x86_64"], [], [], [], []⟩
        1 ⟨"foo", 0, "1.0", "1.fc20", "x86_64", some "affected"⟩ 1)
      1 "CRASHED" "foo" 0 "1.0" "1.fc20" "x86_64"
      = up_count (⟨[], ["x86_64"], [], [], [], []⟩ : DB)
          1 "CRASHED" "foo" 0 "1.0" "1.fc20" "x86_64" + 1 ∨
     save_package_step ⟨[], ["x86_64"], [], [], [], []⟩
        1 ⟨"foo", 0, "1.0", "1.fc20", "x86_64", some "affected"⟩ 1
       = ⟨[], ["x86_64"], [], [], [], []⟩) := by
  refine ⟨?_, ?_, ?_⟩
  · exact (((fedora_C1
      ⟨[⟨"foo", 0, "1.0", "1.fc20", "x86_64"⟩], ["x86_64"], [], [], [], []⟩
      1 ⟨"foo", 0, "1.0", "1.fc20", "x86_64", some "affected"⟩ 1).1
      ⟨"foo", 0, "1.0", "1.fc20", "x86_64"⟩ (by rfl)).2.2.1).trans (by decide)
  · exact ((fedora_C1
      ⟨[⟨"foo", 0, "1.0", "1.fc20", "x86_64"⟩], ["x86_64"], [], [], [], []⟩
      1 ⟨"foo", 0, "1.0", "1.fc20", "x86_64", some "affected"⟩ 1).1
      ⟨"foo", 0, "1.0", "1.fc20", "x86_64"⟩ (by rfl)).2.1
  · exact ((fedora_C1 ⟨[], ["x86_64"], [], [], [], []⟩
      1 ⟨"foo", 0, "1.0", "1.fc20", "x86_64", some "affected"⟩ 1).2
      (by rfl)).2.2

/-! ### Claim C3 -/

/-- C3 (counterexample): the claim fails when an unknown-aggregate row for
the record's key already exists.  Identity absent from the catalog,
architecture unresolvable (`get_arch_by_name` misses), yet the step does
change the state: the pre-existing aggregate's count 5 becomes 6, because
the architecture check sits inside the creation branch only. -/
theorem fedora_C3_counterexample :
    get_package_by_nevra
      ⟨[], [], [], [],
        [⟨1, "CRASHED", "foo", 0, "1.0", "1.fc20", "1.0", "1.fc20", "x86_64", 5⟩], []⟩
      "foo" 0 "1.0" "1.fc20" "x86_64" = none ∧
    get_arch_by_name
      ⟨[], [], [], [],
        [⟨1, "CRASHED", "foo", 0, "1.0", "1.fc20", "1.0", "1.fc20", "x86_64", 5⟩], []⟩
      "x86_64" = none ∧
    save_package_step
      ⟨[], [], [], [],
        [⟨1, "CRASHED", "foo", 0, "1.0", "1.fc20", "1.0", "1.fc20", "x86_64", 5⟩], []⟩
      1 ⟨"foo", 0, "1.0", "1.fc20", "x86_64", some "affected"⟩ 1
      ≠ ⟨[], [], [], [],
          [⟨1, "CRASHED", "foo", 0, "1.0", "1.fc20", "1.0", "1.fc20", "x86_64", 5⟩], []⟩ ∧
    (save_package_step
      ⟨[], [], [], [],
        [⟨1, "CRASHED", "foo", 0, "1.0", "1.fc20", "1.0", "1.fc20", "x86_64", 5⟩], []⟩
      1 ⟨"foo", 0, "1.0", "1.fc20", "x86_64", some "affected"⟩ 1).unknown_packages
      = [⟨1, "CRASHED", "foo", 0, "1.0", "1.fc20", "1.0", "1.fc20", "x86_64", 6⟩] := by
  decide

/-- C3 (amended): a record whose identity is absent from the catalog and
whose architecture does not resolve is skipped entirely — no error, no row,
state unchanged — provided no unknown-aggregate row for its
(report, role, NEVRA) key exists yet (on a repeat occurrence the existing
aggregate is incremented instead; see C9). -/
theorem fedora_C3_theorem (db : DB) (db_report : Nat) (package : PackageRecord)
    (count : Int)
    (h : get_package_by_nevra db package.name package.epoch package.version
      package.release package.architecture = none)
    (hrow : get_unknown_package db db_report (role_classification package)
      package.name package.epoch package.version package.release
      package.architecture = none)
    (harch : get_arch_by_name db package.architecture = none) :
    save_package_step db db_report package count = db :=
  step_absent_skip db db_report package count h hrow harch

theorem fedora_C3_witness :
    save_package_step ⟨[], [], [], [], [], []⟩ 1
      ⟨"foo", 0, "1.0", "1.fc20", "x86_64", some "affected"⟩ 1
      = ⟨[], [], [], [], [], []⟩ :=
  fedora_C3_theorem ⟨[], [], [], [], [], []⟩ 1
    ⟨"foo", 0, "1.0", "1.fc20", "x86_64", some "affected"⟩ 1
    (by rfl) (by rfl) (by rfl)

/-! ### Claim C9 -/

/-- C9: the architecture-resolution check runs only when a new
unknown-aggregate row is created.  If a row matching the
(report, role, name, epoch, version, release, architecture) key already
exists, the step increments its count without consulting the architecture
catalog: the resulting aggregate and association tables are identical for
every possible contents of the architecture catalog. -/
theorem fedora_C9 (db : DB) (db_report : Nat) (package : PackageRecord)
    (count : Int) (row : ReportUnknownPackage)
    (h : get_package_by_nevra db package.name package.epoch package.version
      package.release package.architecture = none)
    (hrow : get_unknown_package db db_report (role_classification package)
      package.name package.epoch package.version package.release
      package.architecture = some row) :
    up_count (save_package_step db db_report package count) db_report
      (role_classification package) package.name package.epoch
      package.version package.release package.architecture
      = up_count db db_report (role_classification package) package.name
          package.epoch package.version package.release
          package.architecture + count ∧
    ∀ arches' : List String,
      (save_package_step { db with arches := arches' } db_report package
        count).unknown_packages
        = (save_package_step db db_report package count).unknown_packages ∧
      (save_package_step { db with arches := arches' } db_report package
        count).report_packages
        = (save_package_step db db_report package count).report_packages := by
  constructor
  · exact (step_absent_hit db db_report package count row h hrow).2
  · intro arches'
    have h' : get_package_by_nevra { db with arches := arches' } package.name
        package.epoch package.version package.release package.architecture
        = none := h
    have hrow' : get_unknown_package { db with arches := arches' } db_report
        (role_classification package) package.name package.epoch
        package.version package.release package.architecture = some row := hrow
    simp only [save_package_step, h, hrow, h', hrow']
    exact ⟨trivial, trivial⟩

theorem fedora_C9_witness :
    up_count (save_package_step
      ⟨[], [], [], [],
        [⟨1, "CRASHED", "foo", 0, "1.0", "1.fc20", "1.0", "1.fc20", "x86_64", 5⟩], []⟩
      1 ⟨"foo", 0, "1.0", "1.fc20", "x86_64", some "affected"⟩ 1)
      1 "CRASHED" "foo" 0 "1.0" "1.fc20" "x86_64" = 6 := by
  refine ((fedora_C9
    ⟨[], [], [], [],
      [⟨1, "CRASHED", "foo", 0, "1.0", "1.fc20", "1.0", "1.fc20", "x86_64", 5⟩], []⟩
    1 ⟨"foo", 0, "1.0", "1.fc20", "x86_64", some "affected"⟩ 1
    ⟨1, "CRASHED", "foo", 0, "1.0", "1.fc20", "1.0", "1.fc20", "x86_64", 5⟩
    (by rfl) (by rfl)).1).trans (by decide)

/-! ### Claim C2 -/

theorem save_packages_replicate_known (db_report : Nat) (p : PackageRecord)
    (k : Int) (pkg : Package) :
    ∀ (N : Nat) (db : DB),
      get_package_by_nevra db p.name p.epoch p.version p.release
        p.architecture = some pkg →
      rp_count (save_packages db db_report (List.replicate N p) k) db_report
        pkg = rp_count db db_report pkg + k * N := by
  intro N
  induction N with
  | zero =>
    intro db h
    simp [save_packages]
  | succ n ih =>
    intro db h
    have hstep := step_known db db_report p k pkg h
    have hframe := save_package_step_frame db db_report p k
    have h' : get_package_by_nevra (save_package_step db db_report p k)
        p.name p.epoch p.version p.release p.architecture = some pkg := by
      rw [get_package_by_nevra_ext hframe.1]
      exact h
    have hrw : save_packages db db_report (List.replicate (n + 1) p) k
        = save_packages (save_package_step db db_report p k) db_report
            (List.replicate n p) k := by
      simp [save_packages, List.replicate_succ]
    rw [hrw, ih _ h', hstep.2.1]
    push_cast
    ring

theorem save_packages_replicate_absent (db_report : Nat) (p : PackageRecord)
    (k : Int) :
    ∀ (N : Nat) (db : DB),
      get_package_by_nevra db p.name p.epoch p.version p.release
        p.architecture = none →
      get_arch_by_name db p.architecture ≠ none →
      up_count (save_packages db db_report (List.replicate N p) k) db_report
          (role_classification p) p.name p.epoch p.version p.release
          p.architecture
        = up_count db db_report (role_classification p) p.name p.epoch
            p.version p.release p.architecture + k * N := by
  intro N
  induction N with
  | zero =>
    intro db h harch
    simp [save_packages]
  | succ n ih =>
    intro db h harch
    have hframe := save_package_step_frame db db_report p k
    have h' : get_package_by_nevra (save_package_step db db_report p k)
        p.name p.epoch p.version p.release p.architecture = none := by
      rw [get_package_by_nevra_ext hframe.1]
      exact h
    have harch' : get_arch_by_name (save_package_step db db_report p k)
        p.architecture ≠ none := by
      rw [get_arch_by_name_ext hframe.2.1]
      exact harch
    have hstep : up_count (save_package_step db db_report p k) db_report
        (role_classification p) p.name p.epoch p.version p.release
        p.architecture
        = up_count db db_report (role_classification p) p.name p.epoch
            p.version p.release p.architecture + k := by
      rcases hrow : get_unknown_package db db_report (role_classification p)
          p.name p.epoch p.version p.release p.architecture with _ | row
      · rcases harch2 : get_arch_by_name db p.architecture with _ | a
        · exact absurd harch2 harch
        · exact (step_absent_create db db_report p k a h hrow harch2).2
      · exact (step_absent_hit db db_report p k row h hrow).2
    have hrw : save_packages db db_report (List.replicate (n + 1) p) k
        = save_packages (save_package_step db db_report p k) db_report
            (List.replicate n p) k := by
      simp [save_packages, List.replicate_succ]
    rw [hrw, ih _ h' harch', hstep]
    push_cast
    ring

/-- C2: starting from a state holding no association (resp. no
unknown-package aggregate) for the pair, reconciling the same
(report, package record) pair `N` times with increment `k` each time
leaves the pair's count equal to exactly `k * N` — so with `k = 1` the
count is exactly `N`.  The known-package side requires the identity to be
in the catalog; the unknown side requires it absent and the architecture
resolvable (otherwise each occurrence is skipped). -/
theorem fedora_C2 (db : DB) (db_report : Nat) (package : PackageRecord)
    (k : Int) (N : Nat) :
    (∀ pkg, get_package_by_nevra db package.name package.epoch
        package.version package.release package.architecture = some pkg →
      (∀ row ∈ db.report_packages, rp_key db_report pkg row = false) →
      rp_count (save_packages db db_report (List.replicate N package) k)
        db_report pkg = k * N) ∧
    (get_package_by_nevra db package.name package.epoch package.version
        package.release package.architecture = none →
      get_arch_by_name db package.architecture ≠ none →
      (∀ row ∈ db.unknown_packages,
        up_key db_report (role_classification package) package.name
          package.epoch package.version package.release package.architecture
          row = false) →
      up_count (save_packages db db_report (List.replicate N package) k)
        db_report (role_classification package) package.name package.epoch
        package.version package.release package.architecture = k * N) := by
  constructor
  · intro pkg h hempty
    have h0 : rp_count db db_report pkg = 0 :=
      sumBy_eq_zero _ _ _ hempty
    rw [save_packages_replicate_known db_report package k pkg N db h, h0,
      zero_add]
  · intro h harch hempty
    have h0 : up_count db db_report (role_classification package)
        package.name package.epoch package.version package.release
        package.architecture = 0 :=
      sumBy_eq_zero _ _ _ hempty
    rw [save_packages_replicate_absent db_report package k N db h harch, h0,
      zero_add]

theorem fedora_C2_witness :
    rp_count (save_packages
        ⟨[⟨"foo", 0, "1.0", "1.fc20", "x86_64"⟩], ["x86_64"], [], [], [], []⟩
        1 (List.replicate 3
            ⟨"foo", 0, "1.0", "1.fc20", "x86_64", some "affected"⟩) 2)
      1 ⟨"foo", 0, "1.0", "1.fc20", "x86_64"⟩ = 6 ∧
    up_count (save_packages ⟨[], ["x86_64"], [], [], [], []⟩
        1 (List.replicate 3
            ⟨"foo", 0, "1.0", "1.fc20", "x86_64", some "affected"⟩) 1)
      1 "CRASHED" "foo" 0 "1.0" "1.fc20" "x86_64" = 3 := by
  constructor
  · exact ((fedora_C2
      ⟨[⟨"foo", 0, "1.0", "1.fc20", "x86_64"⟩], ["x86_64"], [], [], [], []⟩
      1 ⟨"foo", 0, "1.0", "1.fc20", "x86_64", some "affected"⟩ 2 3).1
      ⟨"foo", 0, "1.0", "1.fc20", "x86_64"⟩ (by rfl)
      (by intro row hrow; cases hrow)).trans (by decide)
  · exact ((fedora_C2 ⟨[], ["x86_64"], [], [], [], []⟩
      1 ⟨"foo", 0, "1.0", "1.fc20", "x86_64", some "affected"⟩ 1 3).2
      (by rfl) (by decide)
      (by intro row hrow; cases hrow)).trans (by decide)

/-! ### Claim C7 -/

/-- C7: role classification is a pure function of the role tag alone:
`affected` classifies as CRASHED, `selinux_policy` as SELINUX_POLICY, any
other tag — including an absent one — as RELATED; and two records with
the same tag always receive the same classification, whatever their other
fields.  The function takes no repository state at all. -/
theorem fedora_C7 (p q : PackageRecord) :
    (p.package_role = some "affected" →
      role_classification p = "CRASHED") ∧
    (p.package_role = some "selinux_policy" →
      role_classification p = "SELINUX_POLICY") ∧
    (∀ t : Option String, p.package_role = t → t ≠ some "affected" →
      t ≠ some "selinux_policy" → role_classification p = "RELATED") ∧
    (p.package_role = q.package_role →
      role_classification p = role_classification q) := by
  refine ⟨?_, ?_, ?_, ?_⟩
  · intro h
    simp [role_classification, h]
  · intro h
    simp [role_classification, h]
  · intro t ht h1 h2
    subst ht
    cases hp : p.package_role with
    | none => simp [role_classification, hp]
    | some r =>
      have hr1 : r ≠ "affected" := by
        intro he
        exact h1 (by rw [hp, he])
      have hr2 : r ≠ "selinux_policy" := by
        intro he
        exact h2 (by rw [hp, he])
      simp [role_classification, hp, hr1, hr2]
  · intro h
    simp only [role_classification, h]

theorem fedora_C7_witness :
    role_classification ⟨"foo", 0, "1.0", "1.fc20", "x86_64",
      some "affected"⟩ = "CRASHED" ∧
    role_classification ⟨"bar", 3, "2.0", "9", "i686", some "affected"⟩
      = role_classification ⟨"foo", 0, "1.0", "1.fc20", "x86_64",
          some "affected"⟩ ∧
    role_classification ⟨"foo", 0, "1.0", "1.fc20", "x86_64", none⟩
      = "RELATED" := by
  refine ⟨?_, ?_, ?_⟩
  · exact (fedora_C7 ⟨"foo", 0, "1.0", "1.fc20", "x86_64", some "affected"⟩
      ⟨"foo", 0, "1.0", "1.fc20", "x86_64", some "affected"⟩).1 rfl
  · exact (fedora_C7 ⟨"bar", 3, "2.0", "9", "i686", some "affected"⟩
      ⟨"foo", 0, "1.0", "1.fc20", "x86_64", some "affected"⟩).2.2.2 rfl
  · exact (fedora_C7 ⟨"foo", 0, "1.0", "1.fc20", "x86_64", none⟩
      ⟨"foo", 0, "1.0", "1.fc20", "x86_64", none⟩).2.2.1 none rfl
      (by simp) (by simp)

/-! ### Claim C4 -/

theorem char_toLower_of_isDigit (c : Char) (h : c.isDigit = true) :
    c.toLower = c := by
  simp only [Char.isDigit, Bool.and_eq_true, decide_eq_true_eq] at h
  have h9 : c.toNat ≤ 57 := UInt32.toNat_le_of_le (by decide) h.2
  simp only [Char.toLower]
  split
  · next hcond => omega
  · rfl

theorem map_toLower_of_digits (l : List Char)
    (h : l.all Char.isDigit = true) : l.map Char.toLower = l := by
  induction l with
  | nil => rfl
  | cons c cs ih =>
    simp only [List.all_cons, Bool.and_eq_true] at h
    simp [char_toLower_of_isDigit c h.1, ih h.2]

/-- A non-empty all-digit string never lowercases to `"rawhide"`, so the
`isdigit` branches of `_release_to_branch` are reached exactly on digit
strings. -/
theorem py_isdigit_lower_ne_rawhide (s : String) (h : py_isdigit s = true) :
    py_lower s ≠ "rawhide" := by
  intro he
  unfold py_lower at he
  unfold py_isdigit at h
  simp only [Bool.and_eq_true] at h
  have hdata : s.data.map Char.toLower = "rawhide".data :=
    congrArg String.data he
  rw [map_toLower_of_digits s.data h.2] at hdata
  have hr : 'r' ∈ s.data := by
    rw [hdata]
    decide
  have hd := List.all_eq_true.mp h.2 'r' hr
  simp at hd

/-- C4: the release-to-branch mapping is total and deterministic on exactly
the spec's cases: anything lowercasing to `"rawhide"` maps to `"rawhide"`;
a digit string of value below 6 maps to `"FC-{n}"`, of value 6 to `"fc6"`,
of value above 6 to `"f{n}"`; every other input fails with a `FafError`
whose message carries the offending value. -/
theorem fedora_C4 (s : String) :
    (py_lower s = "rawhide" → release_to_branch s = .ok "rawhide") ∧
    (py_isdigit s = true → py_int s < 6 →
      release_to_branch s = .ok ("FC-" ++ toString (py_int s))) ∧
    (py_isdigit s = true → py_int s = 6 →
      release_to_branch s = .ok "fc6") ∧
    (py_isdigit s = true → 6 < py_int s →
      release_to_branch s = .ok ("f" ++ toString (py_int s))) ∧
    (py_isdigit s = false → py_lower s ≠ "rawhide" →
      release_to_branch s = .error (s ++ " is not a valid Fedora version")) := by
  refine ⟨?_, ?_, ?_, ?_, ?_⟩
  · intro h
    simp [release_to_branch, h]
  · intro hd hlt
    have hne := py_isdigit_lower_ne_rawhide s hd
    simp [release_to_branch, hne, hd, hlt]
  · intro hd h6
    have hne := py_isdigit_lower_ne_rawhide s hd
    simp [release_to_branch, hne, hd, h6]
    decide
  · intro hd hgt
    have hne := py_isdigit_lower_ne_rawhide s hd
    have h1 : ¬(py_int s < 6) := by omega
    have h2 : ¬(py_int s = 6) := by omega
    simp [release_to_branch, hne, hd, h1, h2]
  · intro hd hne
    simp [release_to_branch, hne, hd]

theorem fedora_C4_witness :
    release_to_branch "RAWHIDE" = .ok "rawhide" ∧
    release_to_branch "5" = .ok "FC-5" ∧
    release_to_branch "6" = .ok "fc6" ∧
    release_to_branch "20" = .ok "f20" ∧
    release_to_branch "abc" = .error "abc is not a valid Fedora version" := by
  refine ⟨?_, ?_, ?_, ?_, ?_⟩
  · exact (fedora_C4 "RAWHIDE").1 (by decide)
  · exact ((fedora_C4 "5").2.1 (by decide) (by decide)).trans (by decide)
  · exact (fedora_C4 "6").2.2.1 (by decide) (by decide)
  · exact ((fedora_C4 "20").2.2.2.1 (by decide) (by decide)).trans (by decide)
  · exact (fedora_C4 "abc").2.2.2.2 (by decide) (by decide)

/-! ### Claim C5 -/

theorem scan_roles_of_ok (ps : List PackageRecord)
    (hro : ∀ p ∈ ps, ∀ t, p.package_role = some t → t ∈ pkg_roles) :
    ∀ a : Bool, ∃ b : Bool, scan_roles ps a = .ok b ∧
      (b = true ↔ (a = true ∨ ∃ p ∈ ps, p.package_role = some "affected")) := by
  induction ps with
  | nil =>
    intro a
    exact ⟨a, rfl, by simp⟩
  | cons p ps ih =>
    intro a
    have hro' : ∀ q ∈ ps, ∀ t, q.package_role = some t → t ∈ pkg_roles :=
      fun q hq => hro q (List.mem_cons_of_mem p hq)
    cases hp : p.package_role with
    | none =>
      obtain ⟨b, hb, hiff⟩ := ih hro' a
      refine ⟨b, by simp [scan_roles, hp, hb], ?_⟩
      rw [hiff]
      constructor
      · rintro (h | ⟨q, hq, hqa⟩)
        · exact Or.inl h
        · exact Or.inr ⟨q, List.mem_cons_of_mem p hq, hqa⟩
      · rintro (h | ⟨q, hq, hqa⟩)
        · exact Or.inl h
        · rcases List.mem_cons.mp hq with rfl | hq'
          · rw [hp] at hqa
            cases hqa
          · exact Or.inr ⟨q, hq', hqa⟩
    | some role =>
      have hin : role ∈ pkg_roles :=
        hro p (List.mem_cons_self p ps) role hp
      obtain ⟨b, hb, hiff⟩ := ih hro' (a || decide (role = "affected"))
      refine ⟨b, by simp [scan_roles, hp, hin, hb], ?_⟩
      rw [hiff]
      simp only [Bool.or_eq_true, decide_eq_true_eq, List.mem_cons]
      constructor
      · rintro ((h | h) | h)
        · exact Or.inl h
        · exact Or.inr ⟨p, Or.inl rfl, by rw [hp, h]⟩
        · obtain ⟨q, hq, hqa⟩ := h
          exact Or.inr ⟨q, Or.inr hq, hqa⟩
      · rintro (h | ⟨q, hq' , hqa⟩)
        · exact Or.inl (Or.inl h)
        · rcases hq' with rfl | hq''
          · rw [hp] at hqa
            injection hqa with he
            exact Or.inl (Or.inr he)
          · exact Or.inr ⟨q, hq'', hqa⟩

theorem scan_roles_of_bad (ps : List PackageRecord) :
    ∀ a : Bool, (∃ p ∈ ps, ∃ t, p.package_role = some t ∧ t ∉ pkg_roles) →
      scan_roles ps a = .error (.policyViolation
        "Only the following package roles are allowed: affected, related, selinux_policy") := by
  induction ps with
  | nil =>
    intro a h
    simp at h
  | cons p ps ih =>
    intro a h
    cases hp : p.package_role with
    | none =>
      obtain ⟨q, hq, t, ht, htn⟩ := h
      rcases List.mem_cons.mp hq with rfl | hq'
      · rw [hp] at ht
        cases ht
      · simpa [scan_roles, hp] using ih a ⟨q, hq', t, ht, htn⟩
    | some role =>
      by_cases hin : role ∈ pkg_roles
      · obtain ⟨q, hq, t, ht, htn⟩ := h
        rcases List.mem_cons.mp hq with rfl | hq'
        · rw [hp] at ht
          injection ht with he
          subst he
          exact absurd hin htn
        · simpa [scan_roles, hp, hin] using
            ih (a || decide (role = "affected")) ⟨q, hq', t, ht, htn⟩
      · simp [scan_roles, hp, hin]

/-- C5: assuming the structural checker passes, `validate_packages` fails
with a `PolicyViolation` if and only if some package's role tag lies
outside `pkg_roles`, or no package carries the `affected` role while the
`allow_unpackaged` flag is false; in every other case it returns `true`.
The function is pure: success and failure alike mutate no state. -/
theorem fedora_C5 (allow_unpackaged : Bool) (packages : List PackageRecord)
    (hstruct : packages_checker_ok packages = true) :
    ((∃ e, validate_packages allow_unpackaged packages
        = .error (.policyViolation e)) ↔
      ((∃ p ∈ packages, ∃ t, p.package_role = some t ∧ t ∉ pkg_roles) ∨
       ((∀ p ∈ packages, p.package_role ≠ some "affected") ∧
        allow_unpackaged = false))) ∧
    (¬((∃ p ∈ packages, ∃ t, p.package_role = some t ∧ t ∉ pkg_roles) ∨
       ((∀ p ∈ packages, p.package_role ≠ some "affected") ∧
        allow_unpackaged = false)) →
      validate_packages allow_unpackaged packages = .ok true) := by
  by_cases hro : ∀ p ∈ packages, ∀ t, p.package_role = some t → t ∈ pkg_roles
  · obtain ⟨b, hb, hiff⟩ := scan_roles_of_ok packages hro false
    have hnobad : ¬∃ p ∈ packages, ∃ t, p.package_role = some t ∧
        t ∉ pkg_roles := by
      rintro ⟨p, hp, t, ht, htn⟩
      exact htn (hro p hp t ht)
    have hbaff : b = true ↔ ∃ p ∈ packages, p.package_role = some "affected" := by
      rw [hiff]
      simp
    have heval : validate_packages allow_unpackaged packages
        = if (!(b || allow_unpackaged)) = true
          then .error (.policyViolation "uReport must contain affected package")
          else .ok true := by
      rw [validate_packages, if_pos hstruct, hb]
    constructor
    · constructor
      · rintro ⟨e, he⟩
        by_cases hbv : b = true
        · rw [heval, hbv] at he
          simp at he
        · have hbv' : b = false := by
            revert hbv
            cases b <;> simp
          by_cases hav : allow_unpackaged = true
          · rw [heval, hbv', hav] at he
            simp at he
          · have hav' : allow_unpackaged = false := by
              revert hav
              cases allow_unpackaged <;> simp
            refine Or.inr ⟨?_, hav'⟩
            intro p hp hpa
            have hbt := hbaff.mpr ⟨p, hp, hpa⟩
            rw [hbv'] at hbt
            cases hbt
      · rintro (h | ⟨hna, hfalse⟩)
        · exact absurd h hnobad
        · have hbf : b = false := by
            by_cases hbv : b = true
            · obtain ⟨p, hp, hpa⟩ := hbaff.mp hbv
              exact absurd hpa (hna p hp)
            · revert hbv
              cases b <;> simp
          exact ⟨"uReport must contain affected package",
            by rw [heval, hbf, hfalse]; rfl⟩
    · intro hn
      push_neg at hn
      have hbt : b = true ∨ allow_unpackaged = true := by
        by_cases ha : allow_unpackaged = true
        · exact Or.inr ha
        · have ha' : allow_unpackaged = false := by
            revert ha
            cases allow_unpackaged <;> simp
          have hnB : ¬(∀ p ∈ packages, p.package_role ≠ some "affected") :=
            fun hB => hn.2 hB ha'
          push_neg at hnB
          obtain ⟨p, hp, hpa⟩ := hnB
          exact Or.inl (hbaff.mpr ⟨p, hp, hpa⟩)
      rcases hbt with h' | h'
      · rw [heval, h']
        rfl
      · rw [heval, h']
        simp
  · push_neg at hro
    obtain ⟨p, hp, t, ht, htn⟩ := hro
    have herr := scan_roles_of_bad packages false ⟨p, hp, t, ht, htn⟩
    constructor
    · constructor
      · intro _
        exact Or.inl ⟨p, hp, t, ht, htn⟩
      · intro _
        refine ⟨"Only the following package roles are allowed: affected, related, selinux_policy", ?_⟩
        rw [validate_packages, if_pos hstruct, herr]
    · intro hn
      exact absurd (Or.inl ⟨p, hp, t, ht, htn⟩) hn

theorem fedora_C5_witness :
    (∃ e, validate_packages false
        [⟨"foo", 0, "1.0", "1.fc20", "x86_64", some "related"⟩]
        = .error (.policyViolation e)) ∧
    validate_packages true
        [⟨"foo", 0, "1.0", "1.fc20", "x86_64", some "related"⟩]
      = .ok true := by
  constructor
  · refine ((fedora_C5 false
      [⟨"foo", 0, "1.0", "1.fc20", "x86_64", some "related"⟩]
      (by decide)).1).mpr (Or.inr ⟨?_, rfl⟩)
    intro p hp
    rcases List.mem_cons.mp hp with rfl | h'
    · simp
    · cases h'
  · refine (fedora_C5 true
      [⟨"foo", 0, "1.0", "1.fc20", "x86_64", some "related"⟩]
      (by decide)).2 ?_
    rintro (⟨p, hp, t, ht, htn⟩ | ⟨hna, hfalse⟩)
    · rcases List.mem_cons.mp hp with rfl | h'
      · injection ht with he
        subst he
        exact htn (by decide)
      · cases h'
    · cases hfalse

/-! ### Claims C8 and C10: `save_ureport` -/

theorem save_packages_cons (db : DB) (r : Nat) (p : PackageRecord)
    (ps : List PackageRecord) (c : Int) :
    save_packages db r (p :: ps) c
      = save_packages (save_package_step db r p c) r ps c := rfl

/-- `_save_packages` touches only the two package tables: catalog,
architecture, release and desktop tables are invariant. -/
theorem save_packages_frame (db : DB) (r : Nat) (ps : List PackageRecord)
    (c : Int) :
    (save_packages db r ps c).packages = db.packages ∧
    (save_packages db r ps c).arches = db.arches ∧
    (save_packages db r ps c).releases = db.releases ∧
    (save_packages db r ps c).report_release_desktops
      = db.report_release_desktops := by
  induction ps generalizing db with
  | nil => exact ⟨rfl, rfl, rfl, rfl⟩
  | cons p ps ih =>
    have hstep := save_package_step_frame db r p c
    have hrec := ih (save_package_step db r p c)
    rw [save_packages_cons]
    exact ⟨hrec.1.trans hstep.1, hrec.2.1.trans hstep.2.1,
      hrec.2.2.1.trans hstep.2.2.1, hrec.2.2.2.trans hstep.2.2.2⟩

/-- C10: `ureport_checker` validates only the optional `desktop` field and
never requires `version`, yet the desktop branch of `save_ureport` reads
`ureport["version"]`.  A ureport carrying a (valid) desktop but no version
therefore passes `validate_ureport` while `save_ureport` fails on the
missing key, for every repository state, report, package list and
increment — before reconciling any package. -/
theorem fedora_C10 (ureport : UReport) (d : String)
    (hd : ureport.desktop = some d)
    (hok : ureport_checker_ok ureport = true)
    (hv : ureport.version = none) :
    validate_ureport ureport = .ok true ∧
    ∀ (db : DB) (db_report : Nat) (packages : List PackageRecord)
      (count : Int),
      save_ureport db db_report ureport packages count = none := by
  constructor
  · rw [validate_ureport, if_pos hok]
  · intro db db_report packages count
    simp [save_ureport, hd, hv]

theorem fedora_C10_witness :
    validate_ureport ⟨some "GNOME", none⟩ = .ok true ∧
    save_ureport ⟨[], [], [], [], [], []⟩ 1 ⟨some "GNOME", none⟩
      [⟨"foo", 0, "1.0", "1.fc20", "x86_64", some "affected"⟩] 1 = none := by
  have h := fedora_C10 ⟨some "GNOME", none⟩ "GNOME" rfl (by decide) rfl
  exact ⟨h.1, h.2 ⟨[], [], [], [], [], []⟩ 1
    [⟨"foo", 0, "1.0", "1.fc20", "x86_64", some "affected"⟩] 1⟩

/-- C8 (counterexample): on a report payload carrying `desktop` but no
`version`, `save_ureport` fails (`KeyError`) before delegating to the
package reconciler, although reconciling the same package list directly
would have changed the state — so package reconciliation does not happen
"in every case". -/
theorem fedora_C8_counterexample :
    save_ureport ⟨[], ["x86_64"], [], [], [], []⟩ 1 ⟨some "gnome", none⟩
      [⟨"foo", 0, "1.0", "1.fc20", "x86_64", some "affected"⟩] 1 = none ∧
    save_packages ⟨[], ["x86_64"], [], [], [], []⟩ 1
      [⟨"foo", 0, "1.0", "1.fc20", "x86_64", some "affected"⟩] 1
      ≠ ⟨[], ["x86_64"], [], [], [], []⟩ := by
  decide

/-- C8 (amended): provided the report carries a `version` field whenever it
carries a `desktop` field, `save_ureport` completes; it always delegates
the full package list to `_save_packages` (acting on a state that differs
from the input at most in the desktop table), the desktop table changes
only when the payload has a desktop field and the (distribution, version)
release lookup hits the catalog, and on a hit the matching desktop
aggregate grows by exactly the increment.  On a release-lookup miss only a
warning is logged and package reconciliation still runs. -/
theorem fedora_C8_theorem (db : DB) (db_report : Nat) (ureport : UReport)
    (packages : List PackageRecord) (count : Int)
    (h : ureport.desktop = none ∨ ∃ v, ureport.version = some v) :
    ∃ db', save_ureport db db_report ureport packages count = some db' ∧
      db' = save_packages
        { db with report_release_desktops := db'.report_release_desktops }
        db_report packages count ∧
      (db'.report_release_desktops ≠ db.report_release_desktops →
        ∃ d v rel, ureport.desktop = some d ∧ ureport.version = some v ∧
          get_osrelease db "Fedora" v = some rel) ∧
      (∀ d v rel, ureport.desktop = some d → ureport.version = some v →
        get_osrelease db "Fedora" v = some rel →
        rrd_count db' db_report rel d
          = rrd_count db db_report rel d + count) := by
  rcases hd : ureport.desktop with _ | d
  · -- no desktop field: straight to the reconciler
    refine ⟨save_packages db db_report packages count, ?_, ?_, ?_, ?_⟩
    · simp [save_ureport, hd]
    · have hrrd := (save_packages_frame db db_report packages count).2.2.2
      rw [hrrd]
    · intro hne
      exact absurd (save_packages_frame db db_report packages count).2.2.2 hne
    · intro d' v' rel' hd' _ _
      cases hd'
  · rcases h with h0 | ⟨v, hv⟩
    · rw [hd] at h0
      cases h0
    · rcases hrel : get_osrelease db "Fedora" v with _ | rel
      · -- release lookup miss: warn, skip desktop aggregation, reconcile
        refine ⟨save_packages db db_report packages count, ?_, ?_, ?_, ?_⟩
        · simp [save_ureport, hd, hv, hrel]
        · have hrrd := (save_packages_frame db db_report packages count).2.2.2
          rw [hrrd]
        · intro hne
          exact absurd (save_packages_frame db db_report packages
            count).2.2.2 hne
        · intro d' v' rel' hd' hv' hrel'
          rw [hv] at hv'
          injection hv' with hveq
          rw [← hveq] at hrel'
          rw [hrel] at hrel'
          cases hrel'
      · -- release lookup hit: bump or create the desktop aggregate
        rcases hfind : get_report_release_desktop db db_report rel d
            with _ | row
        · -- create
          refine ⟨save_packages
            { db with report_release_desktops :=
                db.report_release_desktops ++
                  [{ report := db_report, release := rel, desktop := d,
                     count := 0 + count }] }
            db_report packages count, ?_, ?_, ?_, ?_⟩
          · simp [save_ureport, hd, hv, hrel, hfind]
          · have hrrd := (save_packages_frame
              { db with report_release_desktops :=
                  db.report_release_desktops ++
                    [{ report := db_report, release := rel, desktop := d,
                       count := 0 + count }] }
              db_report packages count).2.2.2
            rw [hrrd]
          · intro _
            exact ⟨d, v, rel, rfl, hv, hrel⟩
          · intro d' v' rel' hd' hv' hrel'
            injection hd' with hdeq
            rw [hv] at hv'
            injection hv' with hveq
            rw [← hveq] at hrel'
            rw [hrel] at hrel'
            injection hrel' with hreleq
            subst hdeq
            subst hveq
            subst hreleq
            have hrrd := (save_packages_frame
              { db with report_release_desktops :=
                  db.report_release_desktops ++
                    [{ report := db_report, release := rel, desktop := d,
                       count := 0 + count }] }
              db_report packages count).2.2.2
            unfold rrd_count
            rw [hrrd]
            show sumBy (rrd_key db_report rel d) (fun row => row.count)
              (db.report_release_desktops ++
                [{ report := db_report, release := rel, desktop := d,
                   count := 0 + count }]) = _
            rw [sumBy_append, sumBy_singleton]
            have hkey : rrd_key db_report rel d
                { report := db_report, release := rel, desktop := d,
                  count := 0 + count } = true := by
              simp [rrd_key]
            rw [hkey]
            simp only [if_true]
            ring
        · -- increment in place
          refine ⟨save_packages
            { db with report_release_desktops :=
                (update_first (rrd_key db_report rel d)
                  (fun row => { row with count := row.count + count })
                  db.report_release_desktops) }
            db_report packages count, ?_, ?_, ?_, ?_⟩
          · simp [save_ureport, hd, hv, hrel, hfind]
          · have hrrd := (save_packages_frame
              { db with report_release_desktops :=
                  (update_first (rrd_key db_report rel d)
                    (fun row => { row with count := row.count + count })
                    db.report_release_desktops) }
              db_report packages count).2.2.2
            rw [hrrd]
          · intro _
            exact ⟨d, v, rel, rfl, hv, hrel⟩
          · intro d' v' rel' hd' hv' hrel'
            injection hd' with hdeq
            rw [hv] at hv'
            injection hv' with hveq
            rw [← hveq] at hrel'
            rw [hrel] at hrel'
            injection hrel' with hreleq
            subst hdeq
            subst hveq
            subst hreleq
            have hrrd := (save_packages_frame
              { db with report_release_desktops :=
                  (update_first (rrd_key db_report rel d)
                    (fun row => { row with count := row.count + count })
                    db.report_release_desktops) }
              db_report packages count).2.2.2
            unfold rrd_count
            rw [hrrd]
            show sumBy (rrd_key db_report rel d) (fun row => row.count)
              (update_first (rrd_key db_report rel d)
                (fun row => { row with count := row.count + count })
                db.report_release_desktops) = _
            apply sumBy_update_first_hit
            · intro x hx
              exact ⟨hx, hx, rfl⟩
            · exact find?_key_exists hfind

theorem fedora_C8_witness :
    ∃ db', save_ureport ⟨[], [], [⟨"Fedora", "20"⟩], [], [], []⟩ 1
        ⟨some "gnome", some "20"⟩ [] 1 = some db' ∧
      rrd_count db' 1 ⟨"Fedora", "20"⟩ "gnome"
        = rrd_count (⟨[], [], [⟨"Fedora", "20"⟩], [], [], []⟩ : DB) 1
            ⟨"Fedora", "20"⟩ "gnome" + 1 := by
  obtain ⟨db', h1, _, _, h4⟩ := fedora_C8_theorem
    ⟨[], [], [⟨"Fedora", "20"⟩], [], [], []⟩ 1 ⟨some "gnome", some "20"⟩
    [] 1 (Or.inr ⟨"20", rfl⟩)
  exact ⟨db', h1, h4 "gnome" "20" ⟨"Fedora", "20"⟩ rfl rfl (by rfl)⟩

/-! ### Claim C6: `get_released_builds` -/

theorem str_lt_iff (a b : String) :
    str_lt a b = true ↔ a.data < b.data := by
  unfold str_lt
  exact decide_eq_true_iff

/-- Sorted descending by the raw completion-time string (lexicographic
order on the character lists, which is Python's string order). -/
def SortedByCtDesc (l : List RawBuild) : Prop :=
  List.Pairwise
    (fun a b => b.completion_time.data ≤ a.completion_time.data) l

theorem insert_desc_perm (x : RawBuild) :
    ∀ l : List RawBuild, (insert_desc x l).Perm (x :: l) := by
  intro l
  induction l with
  | nil => exact List.Perm.refl _
  | cons y ys ih =>
    by_cases hcmp : str_lt y.completion_time x.completion_time = true
    · simp only [insert_desc, hcmp, if_true]
      exact List.Perm.refl _
    · have hf : str_lt y.completion_time x.completion_time = false := by
        revert hcmp
        cases str_lt y.completion_time x.completion_time <;> simp
      simp only [insert_desc, hf, Bool.false_eq_true, if_false]
      exact (ih.cons y).trans (List.Perm.swap x y ys)

theorem insert_desc_mem {x z : RawBuild} {l : List RawBuild}
    (h : z ∈ insert_desc x l) : z = x ∨ z ∈ l := by
  have hm := (insert_desc_perm x l).mem_iff.mp h
  simpa using hm

theorem insert_desc_sorted (x : RawBuild) :
    ∀ l : List RawBuild, SortedByCtDesc l →
      SortedByCtDesc (insert_desc x l) := by
  intro l
  induction l with
  | nil =>
    intro _
    exact List.pairwise_singleton _ _
  | cons y ys ih =>
    intro h
    rw [SortedByCtDesc, List.pairwise_cons] at h
    obtain ⟨hy, hys⟩ := h
    by_cases hcmp : str_lt y.completion_time x.completion_time = true
    · have hlt : y.completion_time.data < x.completion_time.data :=
        (str_lt_iff _ _).mp hcmp
      simp only [insert_desc, hcmp, if_true]
      rw [SortedByCtDesc, List.pairwise_cons]
      refine ⟨?_, ?_⟩
      · intro z hz
        rcases List.mem_cons.mp hz with rfl | hz'
        · exact le_of_lt hlt
        · exact le_trans (hy z hz') (le_of_lt hlt)
      · rw [List.pairwise_cons]
        exact ⟨hy, hys⟩
    · have hf : str_lt y.completion_time x.completion_time = false := by
        revert hcmp
        cases str_lt y.completion_time x.completion_time <;> simp
      have hle : x.completion_time.data ≤ y.completion_time.data := by
        rw [← not_lt]
        intro hlt
        exact hcmp ((str_lt_iff _ _).mpr hlt)
      simp only [insert_desc, hf, Bool.false_eq_true, if_false]
      rw [SortedByCtDesc, List.pairwise_cons]
      refine ⟨?_, ih hys⟩
      intro z hz
      rcases insert_desc_mem hz with rfl | hz'
      · exact hle
      · exact hy z hz'

theorem insert_desc_filter (x : RawBuild) (k : String) :
    ∀ l : List RawBuild, SortedByCtDesc l →
      (insert_desc x l).filter (fun b => decide (b.completion_time = k))
        = if x.completion_time = k
          then l.filter (fun b => decide (b.completion_time = k)) ++ [x]
          else l.filter (fun b => decide (b.completion_time = k)) := by
  intro l
  induction l with
  | nil =>
    intro _
    by_cases hk : x.completion_time = k <;> simp [insert_desc, hk]
  | cons y ys ih =>
    intro h
    rw [SortedByCtDesc, List.pairwise_cons] at h
    obtain ⟨hy, hys⟩ := h
    by_cases hcmp : str_lt y.completion_time x.completion_time = true
    · have hlt : y.completion_time.data < x.completion_time.data :=
        (str_lt_iff _ _).mp hcmp
      simp only [insert_desc, hcmp, if_true]
      by_cases hk : x.completion_time = k
      · have hnil : (y :: ys).filter
            (fun b => decide (b.completion_time = k)) = [] := by
          rw [List.filter_eq_nil_iff]
          intro z hz
          simp only [decide_eq_true_eq]
          intro he
          rcases List.mem_cons.mp hz with rfl | hz'
          · exact absurd (congrArg String.data (he.trans hk.symm))
              (ne_of_lt hlt)
          · exact absurd (congrArg String.data (he.trans hk.symm))
              (ne_of_lt (lt_of_le_of_lt (hy z hz') hlt))
        rw [List.filter_cons, if_pos (by simp [hk]), if_pos hk, hnil]
        rfl
      · rw [List.filter_cons, if_neg (by simp [hk]), if_neg hk]
    · have hf : str_lt y.completion_time x.completion_time = false := by
        revert hcmp
        cases str_lt y.completion_time x.completion_time <;> simp
      simp only [insert_desc, hf, Bool.false_eq_true, if_false]
      rw [List.filter_cons, List.filter_cons, ih hys]
      by_cases hk : x.completion_time = k <;>
        by_cases hyk : y.completion_time = k <;>
          simp [hk, hyk]

theorem sorted_desc_spec (l : List RawBuild) :
    ∀ acc : List RawBuild, SortedByCtDesc acc →
      (l.foldl (fun acc x => insert_desc x acc) acc).Perm (acc ++ l) ∧
      SortedByCtDesc (l.foldl (fun acc x => insert_desc x acc) acc) ∧
      ∀ k : String,
        (l.foldl (fun acc x => insert_desc x acc) acc).filter
            (fun b => decide (b.completion_time = k))
          = acc.filter (fun b => decide (b.completion_time = k))
            ++ l.filter (fun b => decide (b.completion_time = k)) := by
  induction l with
  | nil =>
    intro acc hacc
    exact ⟨by simp, hacc, fun k => by simp⟩
  | cons x xs ih =>
    intro acc hacc
    obtain ⟨hperm, hsorted, hfilter⟩ :=
      ih (insert_desc x acc) (insert_desc_sorted x acc hacc)
    rw [List.foldl_cons]
    refine ⟨?_, hsorted, ?_⟩
    · refine hperm.trans ?_
      refine ((insert_desc_perm x acc).append_right xs).trans ?_
      exact List.perm_middle.symm
    · intro k
      rw [hfilter k, insert_desc_filter x k acc hacc, List.filter_cons]
      by_cases hk : x.completion_time = k
      · rw [if_pos hk, if_pos (by simp [hk]), List.append_assoc]
        rfl
      · rw [if_neg hk, if_neg (by simp [hk])]

theorem normalize_builds_forall2 :
    ∀ (l : List RawBuild) (out : List BuildRecord),
      normalize_builds l = some out →
      List.Forall₂ (fun b r => normalize_build b = some r) l out := by
  intro l
  induction l with
  | nil =>
    intro out h
    cases h
    exact List.Forall₂.nil
  | cons b bs ih =>
    intro out h
    rw [normalize_builds] at h
    rcases hb : normalize_build b with _ | r <;> rw [hb] at h
    · cases h
    · rcases hbs : normalize_builds bs with _ | rs <;> rw [hbs] at h
      · cases h
      · cases h
        exact List.Forall₂.cons hb (ih rs hbs)

/-- C6 (counterexample): the merger orders by the raw completion-time
string, not by the parsed timestamp.  The strings `".5"` and `".50"` parse
to the same timestamp (500000 microseconds), so the claim requires the
records to stay in input order (first list before second); the code instead
sorts the second-list record first because `"...0.50"` is lexicographically
greater than `"...0.5"`. -/
theorem fedora_C6_counterexample :
    strptime_datetime "2023-01-01 00:00:00.5"
      = strptime_datetime "2023-01-01 00:00:00.50" ∧
    get_released_builds
      [⟨"a", none, "1", "1", "a-1-1", "2023-01-01 00:00:00.5"⟩]
      [⟨"b", none, "1", "1", "b-1-1", "2023-01-01 00:00:00.50"⟩]
      = some
        [⟨"b", 0, "1", "1", "b-1-1", ⟨2023, 1, 1, 0, 0, 0, 500000⟩⟩,
         ⟨"a", 0, "1", "1", "a-1-1", ⟨2023, 1, 1, 0, 0, 0, 500000⟩⟩] := by
  decide

/-- C6 (amended): whenever `get_released_builds` succeeds, its output is the
normalization (null epoch to 0, completion time parsed, other fields passed
through — `normalize_build`) of a permutation of the concatenation of the
two inputs (no deduplication), ordered by the raw completion-time string
descending, with records whose completion-time *strings* are equal kept in
input order (first list before second).  For canonically formatted
fixed-width timestamps this coincides with timestamp order; for equal
timestamps written differently the string decides, not the input order. -/
theorem fedora_C6_theorem (builds_release builds_updates : List RawBuild)
    (out : List BuildRecord)
    (h : get_released_builds builds_release builds_updates = some out) :
    ∃ raws : List RawBuild,
      raws.Perm (builds_release ++ builds_updates) ∧
      SortedByCtDesc raws ∧
      (∀ k : String,
        raws.filter (fun b => decide (b.completion_time = k))
          = (builds_release ++ builds_updates).filter
              (fun b => decide (b.completion_time = k))) ∧
      List.Forall₂ (fun b r => normalize_build b = some r) raws out := by
  obtain ⟨hperm, hsorted, hfilter⟩ :=
    sorted_desc_spec (builds_release ++ builds_updates) [] List.Pairwise.nil
  refine ⟨sorted_desc (builds_release ++ builds_updates), ?_, hsorted, ?_, ?_⟩
  · exact hperm
  · intro k
    exact hfilter k
  · exact normalize_builds_forall2 _ out h

theorem fedora_C6_witness :
    ∃ raws : List RawBuild,
      raws.Perm
        ([⟨"a", none, "1", "1", "a-1-1", "2023-01-01 00:00:00.0"⟩,
          ⟨"b", some 2, "1", "1", "b-1-1", "2023-03-01 00:00:00.0"⟩] ++
         [⟨"c", none, "1", "1", "c-1-1", "2023-02-01 00:00:00.0"⟩]) ∧
      SortedByCtDesc raws ∧
      (∀ k : String,
        raws.filter (fun b => decide (b.completion_time = k))
          = (([⟨"a", none, "1", "1", "a-1-1", "2023-01-01 00:00:00.0"⟩,
               ⟨"b", some 2, "1", "1", "b-1-1", "2023-03-01 00:00:00.0"⟩] ++
              [⟨"c", none, "1", "1", "c-1-1", "2023-02-01 00:00:00.0"⟩] :
                List RawBuild)).filter
              (fun b => decide (b.completion_time = k))) ∧
      List.Forall₂ (fun b r => normalize_build b = some r) raws
        ([⟨"b", 2, "1", "1", "b-1-1", ⟨2023, 3, 1, 0, 0, 0, 0⟩⟩,
          ⟨"c", 0, "1", "1", "c-1-1", ⟨2023, 2, 1, 0, 0, 0, 0⟩⟩,
          ⟨"a", 0, "1", "1", "a-1-1", ⟨2023, 1, 1, 0, 0, 0, 0⟩⟩] :
            List BuildRecord) :=
  fedora_C6_theorem
    ([⟨"a", none, "1", "1", "a-1-1", "2023-01-01 00:00:00.0"⟩,
      ⟨"b", some 2, "1", "1", "b-1-1", "2023-03-01 00:00:00.0"⟩] :
        List RawBuild)
    ([⟨"c", none, "1", "1", "c-1-1", "2023-02-01 00:00:00.0"⟩] :
        List RawBuild)
    ([⟨"b", 2, "1", "1", "b-1-1", ⟨2023, 3, 1, 0, 0, 0, 0⟩⟩,
      ⟨"c", 0, "1", "1", "c-1-1", ⟨2023, 2, 1, 0, 0, 0, 0⟩⟩,
      ⟨"a", 0, "1", "1", "a-1-1", ⟨2023, 1, 1, 0, 0, 0, 0⟩⟩] :
        List BuildRecord)
    (by decide)
